import Mathlib

/-!
Verification development for the grading-session engine of the
`corretoraipro` repository.  The definitions below are a shallow
embedding of the TypeScript source:

* `src/components/ResultsView.tsx` — result model, aggregation,
  debounced summary refresh, per-item re-evaluation;
* `src/components/Dashboard.tsx` — `handleAnalyze` (submit flow);
* `src/services/authService.ts` — `consumeCredit` (credit gate);
* `src/services/geminiService.ts` — oracle call wrappers (modelled as
  opaque outcomes fed into the handlers).

Numbers are modelled as rationals (JS numbers in this code path are
exact decimals coming from JSON or from `parseFloat` on short decimal
strings; no claim depends on binary-float rounding).  Input strings for
score fields are abstracted by their `parseFloat` meaning
(`Option ℚ`, `none` = `NaN`) together with an emptiness flag, which is
all the source ever inspects of them.
-/

namespace Corretora

/-- JS `Math.round(x * 100) / 100` (`Math.round` rounds half toward
+∞, as does Mathlib's `round`). -/
def round2 (x : ℚ) : ℚ := ((round (x * 100) : ℤ) : ℚ) / 100

/-- JS `parseFloat(value) || 0`: a `NaN` parse (`none`) is coerced to
`0`; a parse of `0` also yields `0` (`0 || 0 = 0`), so on numbers the
coercion is the identity. -/
def parseFloatOr0 : Option ℚ → ℚ
  | none => 0
  | some q => q

/-- In-place update of one list entry, as in
`updatedQuestions[index] = f(updatedQuestions[index])` (all call sites
in the source use an in-bounds index produced by `map`). -/
def listModify {α : Type} (l : List α) (i : ℕ) (f : α → α) : List α :=
  match l, i with
  | [], _ => []
  | a :: as, 0 => f a :: as
  | a :: as, n + 1 => a :: listModify as n f

/-- The `type` tag of a `QuestionResult` (`'question' | 'context'`,
optional in the TS interface; the source only ever tests
`type === 'context'` / `type !== 'context'`). -/
inductive ItemTag
  | question
  | context
deriving DecidableEq, Repr

/-- Value stored in a `score` / `maxScore` slot.

* `num q` — a JS number.
* `rawStr p isEmpty` — a raw input string stored by the field spread at
  `ResultsView.tsx:59` before any parsing (this happens for score-like
  fields of `context` items, where the parse-and-recompute block is
  skipped); `p` is its `parseFloat` meaning, `isEmpty` whether the
  string is `""` (falsy in JS).
* `undef` — the field is absent (`undefined`). -/
inductive SVal
  | num (q : ℚ)
  | rawStr (p : Option ℚ) (isEmpty : Bool)
  | undef
deriving DecidableEq, Repr

/-- One row of the exam: the `QuestionResult` interface of
`src/types.ts` (fields not touched by any claim are kept as data so
frame conditions are expressible). -/
structure QuestionResult where
  type : Option ItemTag
  questionNumber : String
  questionText : String
  alternatives : Option (List String)
  studentAnswer : Option String
  isCorrect : Option Bool
  score : SVal
  maxScore : SVal
  feedback : Option String
deriving DecidableEq, Repr

/-- A JS number appearing in `totalScore` / `maxTotalScore`.
`undet` marks a number produced by implicit string→number coercion
(`Math.round` applied to a string-valued accumulator); its numeric
value is outside this embedding.  It never arises in any state
reachable from oracle-produced data through the delivered UI, because
the UI never issues score edits on context rows (see
`applyRawField`). -/
inductive JSNum
  | num (q : ℚ)
  | undet
deriving DecidableEq, Repr

/-- The `CorrectionResult` interface of `src/types.ts`. -/
structure CorrectionResult where
  studentName : String
  schoolName : Option String
  teacherName : Option String
  className : Option String
  examDate : Option String
  totalScore : JSNum
  maxTotalScore : JSNum
  summary : String
  fullTranscription : String
  questions : List QuestionResult
deriving DecidableEq, Repr

/-- Accumulator of the JS `reduce((acc, q) => acc + (q.score || 0), 0)`
folds: numeric until a (non-empty) string joins the sum, at which point
JS switches to string concatenation. -/
inductive JAcc
  | n (q : ℚ)
  | s
deriving DecidableEq, Repr

/-- One fold step `acc + (v || 0)` of the score reductions.
`undef || 0 = 0`; an empty raw string is falsy, so it also contributes
`0`; a non-empty raw string makes `+` concatenate, turning the
accumulator into a string (whose content this embedding does not
track). -/
def jsAddScore : JAcc → SVal → JAcc
  | .n a, .num q => .n (a + q)
  | .n a, .undef => .n a
  | .n a, .rawStr _ true => .n a
  | .n _, .rawStr _ false => .s
  | .s, _ => .s

/-- Whether the item at `i` is a context row
(`updatedQuestions[index].type !== 'context'` guard,
`ResultsView.tsx:66`).  An out-of-bounds index would crash in JS; no
call site produces one, and it is mapped to `true` (skip) here. -/
def itemIsContext (l : List QuestionResult) (i : ℕ) : Bool :=
  match l.get? i with
  | some it => it.type = some .context
  | none => true

/-- `ResultsView.tsx:71-74`: sum of `score` over the items, skipping
context rows. -/
def sumScoresQC (l : List QuestionResult) : JAcc :=
  l.foldl (fun acc q =>
    if q.type = some .context then acc else jsAddScore acc q.score) (.n 0)

/-- `ResultsView.tsx:84-87`: sum of `maxScore` over the items, skipping
context rows. -/
def sumMaxScoresQC (l : List QuestionResult) : JAcc :=
  l.foldl (fun acc q =>
    if q.type = some .context then acc else jsAddScore acc q.maxScore) (.n 0)

/-- `ResultsView.tsx:106`: sum of `score` over ALL items — unlike the
two folds above, this one does not skip context rows. -/
def sumScoresAll (l : List QuestionResult) : JAcc :=
  l.foldl (fun acc q => jsAddScore acc q.score) (.n 0)

/-- `Math.round(acc * 100) / 100` applied to a fold result.  On a
string-valued accumulator JS coerces the string to some number first;
that value is not determined by this embedding. -/
def round2To : JAcc → JSNum
  | .n a => .num (round2 a)
  | .s => .undet

/-- The `(index, field, value)` argument pairs with which
`handleQuestionChange` is invoked in the source (each field name comes
with the value shape its call sites pass: strings for text and the two
score inputs, a boolean for the correctness select).  Score strings are
abstracted by their `parseFloat` meaning and emptiness. -/
inductive FieldEdit
  | score (p : Option ℚ) (isEmpty : Bool)
  | maxScore (p : Option ℚ) (isEmpty : Bool)
  | isCorrect (b : Bool)
  | questionText (s : String)
  | studentAnswer (s : String)
  | feedback (s : String)
deriving DecidableEq, Repr

/-- `ResultsView.tsx:59`:
`updatedQuestions[index] = { ...updatedQuestions[index], [field]: value }` —
the supplied value is stored into the named field as is (for the score
fields this is the raw input string; parsing only happens later, and
only for non-context items). -/
def applyRawField (it : QuestionResult) : FieldEdit → QuestionResult
  | .score p e => { it with score := .rawStr p e }
  | .maxScore p e => { it with maxScore := .rawStr p e }
  | .isCorrect b => { it with isCorrect := some b }
  | .questionText s => { it with questionText := s }
  | .studentAnswer s => { it with studentAnswer := s }
  | .feedback s => { it with feedback := s }

/-- `handleQuestionChange` (`ResultsView.tsx:57-98`).  The final
`setData` writes `newTotalScore` only when `field === 'score'` and
`newMaxTotalScore` only when `field === 'maxScore'`; when the edited
item is a context row the guard at line 66 leaves both at their
previous values, so only the raw field store is observable. -/
def handleQuestionChange (d : CorrectionResult) (index : ℕ) (e : FieldEdit) :
    CorrectionResult :=
  let uq0 := listModify d.questions index (fun it => applyRawField it e)
  if itemIsContext uq0 index then
    { d with questions := uq0 }
  else
    match e with
    | .score p _ =>
        let scoreValue := parseFloatOr0 p
        let uq1 := listModify uq0 index (fun it => { it with score := .num scoreValue })
        { d with questions := uq1, totalScore := round2To (sumScoresQC uq1) }
    | .maxScore p _ =>
        let maxScoreValue := parseFloatOr0 p
        let uq1 := listModify uq0 index (fun it => { it with maxScore := .num maxScoreValue })
        { d with questions := uq1, maxTotalScore := round2To (sumMaxScoresQC uq1) }
    | _ => { d with questions := uq0 }

/-- The `Partial<QuestionResult>` produced by `reevaluateQuestion`
(`geminiService.ts` response schema: `isCorrect`, `score`, `feedback`,
all required there, but `handleQuestionBulkUpdate` treats each as
optional). -/
structure BulkUpdates where
  isCorrect : Option Bool
  score : Option ℚ
  feedback : Option String
deriving DecidableEq, Repr

/-- `{ ...updatedQuestions[index], ...updates }` — present fields of the
patch override the item's. -/
def applyBulk (it : QuestionResult) (u : BulkUpdates) : QuestionResult :=
  { it with
    isCorrect := u.isCorrect.elim it.isCorrect some
    score := u.score.elim it.score (fun q => SVal.num q)
    feedback := u.feedback.elim it.feedback some }

/-- `handleQuestionBulkUpdate` (`ResultsView.tsx:100-115`): applied by
`handleReevaluate` with the oracle's verdict patch.  Note the total is
recomputed with `sumScoresAll`, which — unlike `handleQuestionChange`'s
fold — does not skip context rows; `maxTotalScore` is never touched. -/
def handleQuestionBulkUpdate (d : CorrectionResult) (index : ℕ) (u : BulkUpdates) :
    CorrectionResult :=
  let uq := listModify d.questions index (fun it => applyBulk it u)
  match u.score with
  | some _ => { d with questions := uq, totalScore := round2To (sumScoresAll uq) }
  | none => { d with questions := uq }

/-- `handleReevaluate` (`ResultsView.tsx:409-424`): on a successful
oracle call the verdict patch is applied via `onBulkUpdate`; on failure
the `catch` only alerts — the model is untouched. -/
def handleReevaluate (d : CorrectionResult) (index : ℕ)
    (oracle : Except Unit BulkUpdates) : CorrectionResult :=
  match oracle with
  | .ok u => handleQuestionBulkUpdate d index u
  | .error _ => d

/-- Numeric reading of a stored score slot used by the spec-side sums:
a number reads as itself, anything else (absent) as `0`. -/
def svalOr0 : SVal → ℚ
  | .num q => q
  | _ => 0

/-- Exact sum of `score` over the non-context items. -/
def qScoreSum (l : List QuestionResult) : ℚ :=
  ((l.filter fun q => ¬ q.type = some .context).map fun q => svalOr0 q.score).sum

/-- Exact sum of `maxScore` over the non-context items. -/
def qMaxScoreSum (l : List QuestionResult) : ℚ :=
  ((l.filter fun q => ¬ q.type = some .context).map fun q => svalOr0 q.maxScore).sum

/-- Modelled from the spec's words (invariant I1, §3): `round2` of the
sum of `score` over Question items only, missing values counting as
`0`, Context items never contributing.  Kept separate from the source
folds so the two can be compared. -/
def specTotalScore (l : List QuestionResult) : ℚ :=
  round2 (qScoreSum l)

/-- Modelled from the spec's words (invariant I2, §3): `round2` of the
sum of `maxScore` over Question items only. -/
def specMaxTotalScore (l : List QuestionResult) : ℚ :=
  round2 (qMaxScoreSum l)

/-- Every non-context item's `score` slot holds a JS number or is
absent (no raw string).  Holds for all oracle-produced data and is
preserved by every handler. -/
def questionScoresNum (l : List QuestionResult) : Bool :=
  l.all fun q => q.type = some .context ||
    (match q.score with | .num _ => true | .undef => true | .rawStr _ _ => false)

/-- Every non-context item's `maxScore` slot holds a JS number or is
absent. -/
def questionMaxScoresNum (l : List QuestionResult) : Bool :=
  l.all fun q => q.type = some .context ||
    (match q.maxScore with | .num _ => true | .undef => true | .rawStr _ _ => false)

/-- Every item's `score` slot (context rows included) holds a JS number
or is absent — what `sumScoresAll` needs to stay numeric. -/
def allScoresNum (l : List QuestionResult) : Bool :=
  l.all fun q =>
    match q.score with | .num _ => true | .undef => true | .rawStr _ _ => false

/-! ## Credit gate (`authService.ts`, `Dashboard.tsx`) -/

/-- `role` of a profile / client user (`'admin' | 'user'`); the spec's
`privileged` is `admin`, `standard` is `user`. -/
inductive Role
  | admin
  | user
deriving DecidableEq, Repr

/-- The per-principal quota row of the `profiles` table, as read and
written by `consumeCredit`. -/
structure Profile where
  role : Role
  credits : ℤ
deriving DecidableEq, Repr

/-- `consumeCredit` (`authService.ts:207-220`), run to completion
without interference.  `store` is the principal's profile row (`none` =
row missing or store unreachable, which makes the `single()` fetch
yield no profile).  Returns the boolean result together with the store
contents afterwards. -/
def consumeCredit (offlineSuperAdmin : Bool) (store : Option Profile) :
    Bool × Option Profile :=
  if offlineSuperAdmin then (true, store)
  else
    match store with
    | none => (false, none)
    | some p =>
      if p.role = .admin then (true, some p)
      else if 0 < p.credits then (true, some { p with credits := p.credits - 1 })
      else (false, some p)

/-- The client-side `user` object the Dashboard holds (role and credit
display copy of the principal). -/
structure AppUser where
  role : Role
  credits : ℤ
deriving DecidableEq, Repr

/-- The gate check at `Dashboard.tsx:70`:
`user.role !== 'admin' && user.credits <= 0` denies the submission. -/
def gateAllows (u : AppUser) : Bool :=
  if u.role ≠ .admin ∧ u.credits ≤ 0 then false else true

/-- Externally visible events of one `handleAnalyze` run, in program
order. -/
inductive Ev
  | gateDenied
  | oracleSuccess
  | oracleFailure
  | commitCall
  | resultShown
  | commitErrorShown
deriving DecidableEq, Repr

/-- Terminal outcome of one `handleAnalyze` run. -/
inductive AnalyzeOutcome
  | deniedNoCredits
  | shown (r : CorrectionResult)
  | droppedCommitFailed
  | oracleError
deriving DecidableEq, Repr

/-- Result of one `handleAnalyze` run: outcome, event trace, and the
quota store afterwards. -/
structure AnalyzeRun where
  outcome : AnalyzeOutcome
  events : List Ev
  store : Option Profile
deriving DecidableEq, Repr

/-- `handleAnalyze` (`Dashboard.tsx:67-101`) for a submit with a file
selected (the `if (!file) return` guard precedes everything a claim
talks about).  Control flow: gate check → `analyzeExam` (the grading
oracle, here an opaque outcome) → on success one `consumeCredit` call →
the result is shown iff the credit was consumed or the client user is
an admin, otherwise an error replaces it; an oracle failure is caught
with no `consumeCredit` call at all. -/
def handleAnalyze (u : AppUser) (offline : Bool) (store : Option Profile)
    (oracle : Except Unit CorrectionResult) : AnalyzeRun :=
  if u.role ≠ .admin ∧ u.credits ≤ 0 then
    { outcome := .deniedNoCredits, events := [.gateDenied], store := store }
  else
    match oracle with
    | .error _ =>
        { outcome := .oracleError, events := [.oracleFailure], store := store }
    | .ok correction =>
        let res := consumeCredit offline store
        if res.1 = true ∨ u.role = .admin then
          { outcome := .shown correction,
            events := [.oracleSuccess, .commitCall, .resultShown],
            store := res.2 }
        else
          { outcome := .droppedCommitFailed,
            events := [.oracleSuccess, .commitCall, .commitErrorShown],
            store := res.2 }

/-! ## Store-level interleaving of two concurrent commits (claim C9)

`consumeCredit` for a standard principal performs two separate store
round-trips: a `select('credits')` and then an `update` writing the
client-computed value `profile.credits - 1`
(`authService.ts:211-216`).  Each round-trip is atomic at the store;
the pair is not.  Two sessions (e.g. two browser tabs) for the same
principal are modelled as two such programs interleaved over one
shared credits cell. -/

/-- One in-flight `consumeCredit` call for a standard principal whose
profile row exists: program counter (`0` = before the select, `1` =
after it, `2` = returned), the credits value it read, and its return
value. -/
structure SessionCall where
  pc : ℕ
  readVal : ℤ
  retOk : Bool
deriving DecidableEq, Repr

/-- A call that has not started yet. -/
def initCall : SessionCall := ⟨0, 0, false⟩

/-- One atomic store step of a session's `consumeCredit`: the select
reads the shared cell; the update writes `readVal - 1` when the read
value was positive, else the call returns `false` without writing. -/
def stepCall (credits : ℤ) (s : SessionCall) : ℤ × SessionCall :=
  match s.pc with
  | 0 => (credits, { s with pc := 1, readVal := credits })
  | 1 =>
      if 0 < s.readVal then (s.readVal - 1, { s with pc := 2, retOk := true })
      else (credits, { s with pc := 2, retOk := false })
  | _ => (credits, s)

/-- Run an interleaving of two concurrent `consumeCredit` calls for the
same principal over the shared credits cell: `true` schedules the next
step of session A, `false` of session B. -/
def runSched (sched : List Bool) (credits : ℤ) (a b : SessionCall) :
    ℤ × SessionCall × SessionCall :=
  match sched with
  | [] => (credits, a, b)
  | tA :: rest =>
      if tA then
        let r := stepCall credits a
        runSched rest r.1 r.2 b
      else
        let r := stepCall credits b
        runSched rest r.1 a r.2

/-! ## Reconciler: the summary-refresh effect of `ResultsView`

`ResultsView.tsx:27-49`: a `useEffect` with dependency array
`[data.questions, data.totalScore]` arms a 2000 ms `setTimeout`; its
cleanup clears the previous timeout.  `data.questions` is compared by
reference, and both `handleQuestionChange` and
`handleQuestionBulkUpdate` always store a freshly spread array, so
EVERY item edit re-runs the effect (not only score changes), while
`handleHeaderChange` (header fields and the summary textarea) and the
summary-response `setData` keep the same array reference and totals and
do not.  When the timeout fires it calls `regenerateSummary` with the
`data` captured by the effect closure — the state as of the last
deps-changing edit.  The response continuation applies
`setData(prev => ({...prev, summary: newSummary}))` whenever
`newSummary` is truthy, with no request correlation.  The first effect
run after mount only consumes the `firstRender` ref and arms nothing.
Resetting the session unmounts the component: the cleanup clears the
pending timeout and any late response's `setData` is dropped by
React. -/

/-- What `regenerateSummary`'s promise resolves with, as seen by the
effect continuation: the new summary string on success, `""` on an
oracle failure (`geminiService.ts:216-217` catches and returns `""`);
a thrown missing-API-key error is caught by the effect's own `catch`.
Both failure shapes are `failure` here: neither reaches the
`setData`. -/
inductive SummaryResp
  | success (s : String)
  | failure
deriving DecidableEq, Repr

/-- State of one `ResultsView` session: the model, the pending debounce
timer (deadline in ms and the effect-closure snapshot of `data`), the
log of fired `regenerateSummary` calls (request id, fire time,
snapshot), the next request id, the updating flag and whether the
component is still mounted. -/
structure ViewSt where
  data : CorrectionResult
  pendingTimer : Option (ℕ × CorrectionResult)
  fired : List (ℕ × ℕ × CorrectionResult)
  nextReq : ℕ
  isUpdatingSummary : Bool
  mounted : Bool
deriving DecidableEq, Repr

/-- Header fields editable through `handleHeaderChange`, with the
summary textarea included (`ResultsView.tsx:303`). -/
inductive HeaderEdit
  | studentName (s : String)
  | schoolName (s : String)
  | teacherName (s : String)
  | className (s : String)
  | examDate (s : String)
  | summaryText (s : String)
deriving DecidableEq, Repr

/-- `handleHeaderChange` (`ResultsView.tsx:52-54`): spread one header
field (the summary textarea also routes through it). -/
def applyHeaderEdit (d : CorrectionResult) : HeaderEdit → CorrectionResult
  | .studentName s => { d with studentName := s }
  | .schoolName s => { d with schoolName := some s }
  | .teacherName s => { d with teacherName := some s }
  | .className s => { d with className := some s }
  | .examDate s => { d with examDate := some s }
  | .summaryText s => { d with summary := s }

/-- Session events, each stamped with its wall-clock time in ms.
`fieldEdit` goes through `handleQuestionChange`; `bulkPatch` is the
arrival of a `reevaluateQuestion` outcome handled by
`handleReevaluate`; `headerEdit` goes through `handleHeaderChange`;
`response` is the resolution of the fired request with the given id;
`reset` unmounts the view; `flush` only advances time. -/
inductive REvent
  | fieldEdit (t : ℕ) (i : ℕ) (e : FieldEdit)
  | bulkPatch (t : ℕ) (i : ℕ) (o : Except Unit BulkUpdates)
  | headerEdit (t : ℕ) (h : HeaderEdit)
  | response (t : ℕ) (id : ℕ) (r : SummaryResp)
  | reset (t : ℕ)
  | flush (t : ℕ)

/-- Fire the pending timeout if its deadline has been reached by time
`t`: the callback (`ResultsView.tsx:34-46`) sets the updating flag and
issues `regenerateSummary` on the closure snapshot; the fired request
is logged under the next request id. -/
def fireDue (v : ViewSt) (t : ℕ) : ViewSt :=
  match v.pendingTimer with
  | some dl =>
      if dl.1 ≤ t then
        { v with pendingTimer := none,
                 fired := v.fired ++ [(v.nextReq, dl.1, dl.2)],
                 nextReq := v.nextReq + 1,
                 isUpdatingSummary := true }
      else v
  | none => v

/-- One event step.  Any due timer fires first (its deadline precedes
the event's time).  Edits that replace `data.questions` re-run the
effect: the cleanup clears the old timeout and a new one is armed for
`t + 2000` capturing the new `data`.  A response applies its summary
whenever it is non-empty and the component is mounted — there is no
staleness check. -/
def stepView (v : ViewSt) : REvent → ViewSt
  | .fieldEdit t i e =>
      let v' := fireDue v t
      if v'.mounted then
        let d := handleQuestionChange v'.data i e
        { v' with data := d, pendingTimer := some (t + 2000, d) }
      else v'
  | .bulkPatch t i o =>
      let v' := fireDue v t
      if v'.mounted then
        match o with
        | .ok u =>
            let d := handleQuestionBulkUpdate v'.data i u
            { v' with data := d, pendingTimer := some (t + 2000, d) }
        | .error _ => v'
      else v'
  | .headerEdit t h =>
      let v' := fireDue v t
      if v'.mounted then { v' with data := applyHeaderEdit v'.data h } else v'
  | .response t id r =>
      let v' := fireDue v t
      if v'.mounted ∧ id < v'.nextReq then
        match r with
        | .success s =>
            if s ≠ "" then
              { v' with data := { v'.data with summary := s },
                        isUpdatingSummary := false }
            else { v' with isUpdatingSummary := false }
        | .failure => { v' with isUpdatingSummary := false }
      else v'
  | .reset t =>
      let v' := fireDue v t
      { v' with mounted := false, pendingTimer := none }
  | .flush t => fireDue v t

/-- Mounting `ResultsView` with the freshly graded result: the effect's
first run consumes `firstRender` and arms nothing. -/
def initView (r : CorrectionResult) : ViewSt :=
  { data := r, pendingTimer := none, fired := [], nextReq := 0,
    isUpdatingSummary := false, mounted := true }

/-- Run a session from the initial population through a list of
events. -/
def runView (r : CorrectionResult) (evs : List REvent) : ViewSt :=
  evs.foldl stepView (initView r)

/-! ## Concrete sample data used in scenarios and witnesses -/

/-- One `consumeCredit` round against a present profile row, viewed as
a store transformer (used to iterate gate operations). -/
def consumeStep (p : Profile) : Profile :=
  ((consumeCredit false (some p)).2).getD p

/-- A context row as the grading oracle returns it (no score fields). -/
def ctxItem0 : QuestionResult :=
  { type := some .context, questionNumber := "Texto", questionText := "apoio",
    alternatives := none, studentAnswer := none, isCorrect := none,
    score := .undef, maxScore := .undef, feedback := none }

/-- A question row with the given score and maxScore. -/
def qItem (sc mx : ℚ) : QuestionResult :=
  { type := some .question, questionNumber := "1", questionText := "enunciado",
    alternatives := none, studentAnswer := some "resp", isCorrect := some false,
    score := .num sc, maxScore := .num mx, feedback := some "fb" }

/-- A session result with the given items and stamped totals. -/
def baseResult (qs : List QuestionResult) (ts ms : ℚ) : CorrectionResult :=
  { studentName := "Aluno", schoolName := none, teacherName := none,
    className := none, examDate := none, totalScore := .num ts,
    maxTotalScore := .num ms, summary := "orig", fullTranscription := "tr",
    questions := qs }

/-- A one-question sample result. -/
def rSample : CorrectionResult := baseResult [qItem 7 10] 7 10

/-- A context row followed by a question, with the totals the
aggregation invariant prescribes. -/
def dPair : CorrectionResult := baseResult [ctxItem0, qItem 3 10] 3 10

/-- A context row to which the oracle attached a score (the response
schema allows `score` on `type: 'context'` items), followed by a
question; totals satisfy the spec invariant (Question items only). -/
def ctxScored : QuestionResult := { ctxItem0 with score := .num 5 }

/-- Session state used for C1: the invariant holds before the patch. -/
def dC1 : CorrectionResult := baseResult [ctxScored, qItem 3 10] 3 10

/-- A re-evaluation verdict patch giving the question score 4. -/
def uC1 : BulkUpdates :=
  { isCorrect := some true, score := some 4, feedback := some "ok" }

/-- A mounted view that fired one summarize request (id 0) at t=2000
after an edit at t=0. -/
def vC5 : ViewSt :=
  runView rSample [.fieldEdit 0 0 (.isCorrect true), .flush 2000]

/-- Event trace for the C5 scenario: edit, fire request 0, newer edit,
fire request 1, request 1's response arrives, then request 0's stale
response arrives last. -/
def c5trace : List REvent :=
  [.fieldEdit 0 0 (.isCorrect true), .flush 2000,
   .fieldEdit 2100 0 (.isCorrect false), .flush 4100,
   .response 4200 1 (.success "fresh"), .response 4300 0 (.success "stale")]

/-! ## Helper lemmas -/

lemma round2_of_mul_eq_int (x : ℚ) (n : ℤ) (h : x * 100 = (n : ℚ)) :
    round2 x = x := by
  have hx : x = (n : ℚ) / 100 := by
    field_simp
    linarith [h]
  rw [round2, h, round_intCast, ← hx]

lemma listModify_get?_same {α : Type} (l : List α) (i : ℕ) (f : α → α) (a : α)
    (h : l.get? i = some a) : (listModify l i f).get? i = some (f a) := by
  induction l generalizing i with
  | nil => simp at h
  | cons b tl ih =>
      cases i with
      | zero => simp at h; simp [listModify, h]
      | succ n => simpa [listModify] using ih n (by simpa using h)

lemma listModify_comp {α : Type} (l : List α) (i : ℕ) (f g : α → α) :
    listModify (listModify l i f) i g = listModify l i (fun a => g (f a)) := by
  induction l generalizing i with
  | nil => simp [listModify]
  | cons b tl ih =>
      cases i with
      | zero => simp [listModify]
      | succ n => simp [listModify, ih]

lemma listModify_all {α : Type} (l : List α) (i : ℕ) (f : α → α) (p : α → Bool)
    (h : l.all p = true) (hf : ∀ a, p a = true → p (f a) = true) :
    (listModify l i f).all p = true := by
  induction l generalizing i with
  | nil => simp [listModify]
  | cons b tl ih =>
      simp only [List.all_cons, Bool.and_eq_true] at h
      cases i with
      | zero => simp [listModify, hf b h.1, h.2]
      | succ n => simp [listModify, h.1, ih n h.2]

lemma applyRawField_type (it : QuestionResult) (e : FieldEdit) :
    (applyRawField it e).type = it.type := by
  cases e <;> rfl

lemma fireDue_data (v : ViewSt) (t : ℕ) : (fireDue v t).data = v.data := by
  unfold fireDue
  cases v.pendingTimer <;> simp
  split <;> rfl

lemma fireDue_mounted (v : ViewSt) (t : ℕ) :
    (fireDue v t).mounted = v.mounted := by
  unfold fireDue
  cases v.pendingTimer <;> simp
  split <;> rfl

lemma fireDue_nextReq_le (v : ViewSt) (t : ℕ) :
    v.nextReq ≤ (fireDue v t).nextReq := by
  unfold fireDue
  cases v.pendingTimer <;> simp
  split <;> simp

lemma jsAddScore_num (a x : ℚ) :
    jsAddScore (.n a) (.num x) = .n (a + x) := rfl

lemma jsAddScore_undef (a : ℚ) :
    jsAddScore (.n a) .undef = .n a := rfl

lemma sumScoresQC_go (l : List QuestionResult) (a : ℚ)
    (h : questionScoresNum l = true) :
    List.foldl (fun acc q =>
        if q.type = some .context then acc else jsAddScore acc q.score)
      (JAcc.n a) l = .n (a + qScoreSum l) := by
  induction l generalizing a with
  | nil => simp [qScoreSum]
  | cons q tl ih =>
      simp only [questionScoresNum, List.all_cons, Bool.and_eq_true] at h
      have htl : questionScoresNum tl = true := h.2
      by_cases hq : q.type = some ItemTag.context
      · simp only [List.foldl_cons, if_pos hq]
        rw [ih a htl]
        simp [qScoreSum, List.filter_cons, hq]
      · have hsum : qScoreSum (q :: tl) = svalOr0 q.score + qScoreSum tl := by
          simp [qScoreSum, List.filter_cons, hq]
        cases hv : q.score with
        | num x =>
            simp only [List.foldl_cons, if_neg hq, hv, jsAddScore_num]
            rw [ih (a + x) htl, hsum, hv]
            simp [svalOr0]
            ring
        | rawStr p emp =>
            have hsc := h.1
            rw [hv] at hsc
            simp [hq] at hsc
        | undef =>
            simp only [List.foldl_cons, if_neg hq, hv, jsAddScore_undef]
            rw [ih a htl, hsum, hv]
            simp [svalOr0]

lemma sumScoresQC_eq (l : List QuestionResult)
    (h : questionScoresNum l = true) :
    sumScoresQC l = .n (qScoreSum l) := by
  have := sumScoresQC_go l 0 h
  simpa [sumScoresQC] using this

lemma sumMaxScoresQC_go (l : List QuestionResult) (a : ℚ)
    (h : questionMaxScoresNum l = true) :
    List.foldl (fun acc q =>
        if q.type = some .context then acc else jsAddScore acc q.maxScore)
      (JAcc.n a) l = .n (a + qMaxScoreSum l) := by
  induction l generalizing a with
  | nil => simp [qMaxScoreSum]
  | cons q tl ih =>
      simp only [questionMaxScoresNum, List.all_cons, Bool.and_eq_true] at h
      have htl : questionMaxScoresNum tl = true := h.2
      by_cases hq : q.type = some ItemTag.context
      · simp only [List.foldl_cons, if_pos hq]
        rw [ih a htl]
        simp [qMaxScoreSum, List.filter_cons, hq]
      · have hsum : qMaxScoreSum (q :: tl) = svalOr0 q.maxScore + qMaxScoreSum tl := by
          simp [qMaxScoreSum, List.filter_cons, hq]
        cases hv : q.maxScore with
        | num x =>
            simp only [List.foldl_cons, if_neg hq, hv, jsAddScore_num]
            rw [ih (a + x) htl, hsum, hv]
            simp [svalOr0]
            ring
        | rawStr p emp =>
            have hsc := h.1
            rw [hv] at hsc
            simp [hq] at hsc
        | undef =>
            simp only [List.foldl_cons, if_neg hq, hv, jsAddScore_undef]
            rw [ih a htl, hsum, hv]
            simp [svalOr0]

lemma sumMaxScoresQC_eq (l : List QuestionResult)
    (h : questionMaxScoresNum l = true) :
    sumMaxScoresQC l = .n (qMaxScoreSum l) := by
  have := sumMaxScoresQC_go l 0 h
  simpa [sumMaxScoresQC] using this

/-! ## Claim theorems -/

/-- Claim C7: when a re-evaluation or summarize oracle call fails, no
model mutation occurs — `handleReevaluate` returns the state unchanged
on a failed call (previous verdict intact), and a failed or empty
summary response leaves `data` (in particular the previous summary
string) untouched. -/
theorem c7_failed_calls_leave_model_intact :
    (∀ (d : CorrectionResult) (i : ℕ), handleReevaluate d i (.error ()) = d)
    ∧ (∀ (v : ViewSt) (t id : ℕ),
        (stepView v (.response t id .failure)).data = v.data)
    ∧ (∀ (v : ViewSt) (t id : ℕ),
        (stepView v (.response t id (.success ""))).data = v.data) := by
  refine ⟨fun d i => rfl, fun v t id => ?_, fun v t id => ?_⟩
  · simp only [stepView]
    split
    · simp [fireDue_data]
    · simp [fireDue_data]
  · simp only [stepView]
    split
    · simp [fireDue_data]
    · simp [fireDue_data]

/-- Claim C4, counterexample to the claim as stated: editing a Context
item's `score` does leave `totalScore`/`maxTotalScore` unchanged, but
it is NOT free of other mutation — the raw input value is spread into
the item's `score` slot (`ResultsView.tsx:59` runs before the
context guard), so the questions list changes. -/
theorem c4_context_edit_mutates_item :
    (handleQuestionChange dPair 0 (.score (some 5) false)).questions
        ≠ dPair.questions
    ∧ (handleQuestionChange dPair 0 (.score (some 5) false)).totalScore
        = dPair.totalScore
    ∧ (handleQuestionChange dPair 0 (.score (some 5) false)).maxTotalScore
        = dPair.maxTotalScore := by
  refine ⟨?_, rfl, rfl⟩
  decide

/-- Claim C4 (amended): a field edit at a Context item's index leaves
`totalScore` and `maxTotalScore` unchanged and runs no aggregation, but
it does mutate the model: the supplied raw value is written into the
named field of that item (and nothing else changes). -/
theorem c4_context_edit_keeps_totals_but_stores_raw
    (d : CorrectionResult) (i : ℕ) (it : QuestionResult) (e : FieldEdit)
    (hget : d.questions.get? i = some it)
    (hctx : it.type = some .context) :
    handleQuestionChange d i e
      = { d with questions := listModify d.questions i (fun x => applyRawField x e) }
    ∧ (handleQuestionChange d i e).totalScore = d.totalScore
    ∧ (handleQuestionChange d i e).maxTotalScore = d.maxTotalScore := by
  have hg : (listModify d.questions i fun x => applyRawField x e).get? i
      = some (applyRawField it e) := listModify_get?_same _ _ _ _ hget
  have hic : itemIsContext (listModify d.questions i fun x => applyRawField x e) i
      = true := by
    unfold itemIsContext
    rw [hg]
    simp [applyRawField_type, hctx]
  have heq : handleQuestionChange d i e
      = { d with questions := listModify d.questions i (fun x => applyRawField x e) } := by
    simp [handleQuestionChange, hic]
  exact ⟨heq, by rw [heq], by rw [heq]⟩

/-- Witness for C4's amended theorem at a concrete context row. -/
theorem c4_context_edit_witness :
    handleQuestionChange dPair 0 (.maxScore (some 2) false)
      = { dPair with questions := (listModify dPair.questions 0
            (fun x => applyRawField x (.maxScore (some 2) false))) }
    ∧ (handleQuestionChange dPair 0 (.maxScore (some 2) false)).totalScore
        = dPair.totalScore
    ∧ (handleQuestionChange dPair 0 (.maxScore (some 2) false)).maxTotalScore
        = dPair.maxTotalScore :=
  c4_context_edit_keeps_totals_but_stores_raw dPair 0 ctxItem0
    (.maxScore (some 2) false) rfl rfl

lemma consumeStep_nonneg (n : ℕ) :
    ∀ p : Profile, 0 ≤ p.credits → 0 ≤ (consumeStep^[n] p).credits := by
  induction n with
  | zero => intro p hp; simpa using hp
  | succ m ih =>
      intro p hp
      rw [Function.iterate_succ_apply]
      apply ih
      rcases p with ⟨r, c⟩
      cases r with
      | admin => simpa [consumeStep, consumeCredit] using hp
      | user =>
          by_cases h : 0 < c
          · simp [consumeStep, consumeCredit, h]
            omega
          · simp [consumeStep, consumeCredit, h]
            simpa using hp

/-- Claim C8: the gate authorizes iff the principal is an admin or has
strictly positive remaining quota; a successful commit decrements a
standard principal's remaining count by exactly 1 and leaves an admin's
untouched; with no credits the commit fails without writing; and the
remaining count never becomes negative under any sequence of commit
operations. -/
theorem c8_gate_and_commit (u : AppUser) (p : Profile) (n : ℕ) :
    (gateAllows u = true ↔ (u.role = .admin ∨ 0 < u.credits))
    ∧ (p.role = .user → 0 < p.credits →
        consumeCredit false (some p)
          = (true, some { p with credits := p.credits - 1 }))
    ∧ (p.role = .admin → consumeCredit false (some p) = (true, some p))
    ∧ (p.role = .user → p.credits ≤ 0 →
        consumeCredit false (some p) = (false, some p))
    ∧ (0 ≤ p.credits → 0 ≤ (consumeStep^[n] p).credits) := by
  refine ⟨?_, ?_, ?_, ?_, consumeStep_nonneg n p⟩
  · rcases u with ⟨r, c⟩
    cases r <;> simp [gateAllows]
  · intro h1 h2
    simp [consumeCredit, h1, h2]
  · intro h
    simp [consumeCredit, h]
  · intro h1 h2
    simp [consumeCredit, h1, not_lt.mpr h2]

/-- Witness for C8 at concrete principals: a standard user with 1
credit, an admin with 7, a standard user with 0, and three iterated
commits starting from 1 credit. -/
theorem c8_gate_and_commit_witness :
    (gateAllows ⟨.user, 2⟩ = true ↔ ((Role.user = .admin) ∨ (0 : ℤ) < 2))
    ∧ consumeCredit false (some ⟨.user, 1⟩)
        = (true, some { Profile.mk .user 1 with credits := 1 - 1 })
    ∧ consumeCredit false (some ⟨.admin, 7⟩) = (true, some ⟨.admin, 7⟩)
    ∧ consumeCredit false (some ⟨.user, 0⟩) = (false, some ⟨.user, 0⟩)
    ∧ 0 ≤ (consumeStep^[3] ⟨.user, 1⟩).credits :=
  ⟨(c8_gate_and_commit ⟨.user, 2⟩ ⟨.user, 1⟩ 3).1,
   (c8_gate_and_commit ⟨.user, 2⟩ ⟨.user, 1⟩ 3).2.1 rfl (by decide),
   (c8_gate_and_commit ⟨.user, 2⟩ ⟨.admin, 7⟩ 3).2.2.1 rfl,
   (c8_gate_and_commit ⟨.user, 2⟩ ⟨.user, 0⟩ 3).2.2.2.1 rfl (by decide),
   (c8_gate_and_commit ⟨.user, 2⟩ ⟨.user, 1⟩ 3).2.2.2.2 (by decide)⟩

/-- Claim C9, counterexample to the claim as stated: `consumeCredit` is
a non-atomic read-then-write, so the interleaving select-A, select-B,
update-A, update-B starting from 2 credits lets both commits return
`true` while the shared count drops only to 1 — a lost update (the
claim demands the net effect of two successful commits be a decrement
of 2, i.e. a final count of 0). -/
theorem c9_two_commits_lose_an_update :
    (runSched [true, false, true, false] 2 initCall initCall).2.1.retOk = true
    ∧ (runSched [true, false, true, false] 2 initCall initCall).2.2.retOk = true
    ∧ (runSched [true, false, true, false] 2 initCall initCall).1 = 1
    ∧ (runSched [true, false, true, false] 2 initCall initCall).1 ≠ 0 := by
  decide

/-- Claim C9 (amended): the commit is a non-atomic read-then-write
(select `credits`, then update to the client-computed read value minus
1), so whenever the counter is positive, the interleaving in which both
sessions read before either writes makes both commits succeed while the
counter decrements by only 1. -/
theorem c9_interleaved_commits_decrement_once (c : ℤ) (hc : 0 < c) :
    runSched [true, false, true, false] c initCall initCall
      = (c - 1, ⟨2, c, true⟩, ⟨2, c, true⟩) := by
  simp [runSched, stepCall, initCall, hc]

/-- Witness for C9's amended theorem at 2 credits. -/
theorem c9_interleaved_commits_witness :
    (0 : ℤ) < 2
    ∧ runSched [true, false, true, false] 2 initCall initCall
        = (2 - 1, ⟨2, 2, true⟩, ⟨2, 2, true⟩) :=
  ⟨by decide, c9_interleaved_commits_decrement_once 2 (by decide)⟩

lemma count_take_success_trace (x : Ev) (n : ℕ)
    (h : 0 < (([Ev.oracleSuccess, Ev.commitCall, x].take n).count Ev.commitCall)) :
    0 < (([Ev.oracleSuccess, Ev.commitCall, x].take n).count Ev.oracleSuccess) := by
  match n with
  | 0 => simp at h
  | m + 1 =>
      simp [List.take_succ_cons, List.count_cons]

lemma consumeCredit_admin (offline : Bool) (p : Profile) (h : p.role = .admin) :
    consumeCredit offline (some p) = (true, some p) := by
  cases offline <;> simp [consumeCredit, h]

/-- Claim C2: per submit, the consume-credit commit is called exactly
once when the grading call succeeds (and the gate admitted the
submission), zero times when the grading call fails or the gate denies,
and never before the grading oracle has returned a result (every prefix
of the event trace containing the commit already contains the oracle's
success); an admin principal's store row is never changed. -/
theorem c2_commit_once_after_success (u : AppUser) (offline : Bool)
    (store : Option Profile) (oracle : Except Unit CorrectionResult) :
    ((∃ r, oracle = .ok r) → gateAllows u = true →
        (handleAnalyze u offline store oracle).events.count .commitCall = 1)
    ∧ ((∃ er, oracle = .error er) →
        (handleAnalyze u offline store oracle).events.count .commitCall = 0)
    ∧ (gateAllows u = false →
        (handleAnalyze u offline store oracle).events.count .commitCall = 0)
    ∧ (∀ n : ℕ,
        0 < ((handleAnalyze u offline store oracle).events.take n).count .commitCall →
        0 < ((handleAnalyze u offline store oracle).events.take n).count .oracleSuccess)
    ∧ (∀ p, store = some p → p.role = .admin →
        (handleAnalyze u offline store oracle).store = store) := by
  by_cases hg : u.role ≠ Role.admin ∧ u.credits ≤ 0
  · have hrun : handleAnalyze u offline store oracle
        = { outcome := .deniedNoCredits, events := [.gateDenied], store := store } := by
      simp [handleAnalyze, hg]
    have hga : gateAllows u = false := by simp [gateAllows, hg]
    refine ⟨?_, ?_, ?_, ?_, ?_⟩
    · intro _ hga'
      rw [hga] at hga'
      exact absurd hga' (by simp)
    · intro _
      rw [hrun]
      simp
    · intro _
      rw [hrun]
      simp
    · intro n
      rw [hrun]
      match n with
      | 0 => simp
      | m + 1 => simp
    · intro p _ _
      rw [hrun]
  · have hga : gateAllows u = true := by simp [gateAllows, hg]
    cases oracle with
    | error er =>
        have hrun : handleAnalyze u offline store (.error er)
            = { outcome := .oracleError, events := [.oracleFailure], store := store } := by
          simp [handleAnalyze, hg]
        refine ⟨?_, ?_, ?_, ?_, ?_⟩
        · rintro ⟨r, hr⟩
          exact absurd hr (by simp)
        · intro _
          rw [hrun]
          simp
        · intro h
          rw [hga] at h
          exact absurd h (by simp)
        · intro n
          rw [hrun]
          match n with
          | 0 => simp
          | m + 1 => simp
        · intro p _ _
          rw [hrun]
    | ok r =>
        have hev : (handleAnalyze u offline store (.ok r)).events
            = [.oracleSuccess, .commitCall,
               if (consumeCredit offline store).1 = true ∨ u.role = .admin
               then Ev.resultShown else Ev.commitErrorShown] := by
          by_cases hc : (consumeCredit offline store).1 = true ∨ u.role = .admin
          · simp [handleAnalyze, hg, hc]
          · simp [handleAnalyze, hg, hc]
        have hst : (handleAnalyze u offline store (.ok r)).store
            = (consumeCredit offline store).2 := by
          by_cases hc : (consumeCredit offline store).1 = true ∨ u.role = .admin
          · simp [handleAnalyze, hg, hc]
          · simp [handleAnalyze, hg, hc]
        refine ⟨?_, ?_, ?_, ?_, ?_⟩
        · intro _ _
          rw [hev]
          by_cases hc : (consumeCredit offline store).1 = true ∨ u.role = Role.admin
          · simp [hc, List.count_cons]
          · simp [hc, List.count_cons]
        · rintro ⟨er, her⟩
          exact absurd her (by simp)
        · intro h
          rw [hga] at h
          exact absurd h (by simp)
        · intro n
          rw [hev]
          exact count_take_success_trace _ n
        · intro p hp hrole
          rw [hst, hp, consumeCredit_admin offline p hrole]

/-- Witness for C2 at a concrete standard client user whose store row
is an admin profile, with a successful grading call. -/
theorem c2_commit_once_witness :
    (handleAnalyze ⟨.user, 3⟩ false (some ⟨.admin, 7⟩)
        (.ok rSample)).events.count .commitCall = 1
    ∧ (handleAnalyze ⟨.user, 3⟩ false (some ⟨.admin, 7⟩)
        (.ok rSample)).store = some ⟨.admin, 7⟩ :=
  ⟨(c2_commit_once_after_success ⟨.user, 3⟩ false (some ⟨.admin, 7⟩)
      (.ok rSample)).1 ⟨rSample, rfl⟩ (by decide),
   (c2_commit_once_after_success ⟨.user, 3⟩ false (some ⟨.admin, 7⟩)
      (.ok rSample)).2.2.2.2 ⟨.admin, 7⟩ rfl rfl⟩

/-- Claim C3 (defect evaluation): with a standard principal whose store
row has 0 credits while the client-side copy still shows 1, the grading
call succeeds, the commit fails, and `handleAnalyze` discards the
already-computed result — the outcome is the commit-failure error and
the result is never shown, contradicting the claim that the result must
still be surfaced. -/
theorem c3_commit_failure_drops_result :
    (handleAnalyze ⟨.user, 1⟩ false (some ⟨.user, 0⟩) (.ok rSample)).outcome
        = .droppedCommitFailed
    ∧ (∀ r, (handleAnalyze ⟨.user, 1⟩ false (some ⟨.user, 0⟩)
        (.ok rSample)).outcome ≠ .shown r)
    ∧ (handleAnalyze ⟨.user, 1⟩ false (some ⟨.user, 0⟩)
        (.ok rSample)).events.count .resultShown = 0 := by
  have h : (handleAnalyze ⟨.user, 1⟩ false (some ⟨.user, 0⟩) (.ok rSample)).outcome
      = .droppedCommitFailed := by rfl
  refine ⟨h, fun r => ?_, by rfl⟩
  rw [h]
  simp

/-- Claim C5, counterexample to the claim as stated: the effect has no
request id.  After request 0 fires at t=2000, a newer refresh cycle
starts (edit at t=2100) and its request 1 fires at t=4100 and responds
first; request 0's stale response then arrives last and is written into
`summary` anyway, overwriting the response of the most recently fired
request instead of being discarded. -/
theorem c5_stale_response_is_applied :
    (runView rSample c5trace).data.summary = "stale"
    ∧ (runView rSample c5trace).data.summary ≠ "fresh"
    ∧ (runView rSample c5trace).fired.length = 2 := by
  refine ⟨rfl, ?_, rfl⟩
  decide

/-- Claim C5 (amended): every successful non-empty summarize response
that arrives while the view is mounted is written into `summary`,
whether or not a newer refresh cycle has started (no request
correlation); only after a reset (which unmounts the view and clears
the pending timer) are late responses dropped without mutating the
model. -/
theorem c5_responses_apply_unconditionally (v : ViewSt) (t tr id : ℕ)
    (s : String) (r : SummaryResp) :
    (v.mounted = true → id < v.nextReq → s ≠ "" →
        (stepView v (.response t id (.success s))).data.summary = s)
    ∧ stepView (stepView v (.reset tr)) (.response t id r)
        = stepView v (.reset tr) := by
  constructor
  · intro hm hid hs
    have h1 : (fireDue v t).mounted = true := by rw [fireDue_mounted]; exact hm
    have h2 : id < (fireDue v t).nextReq :=
      lt_of_lt_of_le hid (fireDue_nextReq_le v t)
    simp [stepView, h1, h2, hs]
  · have hpt : (stepView v (.reset tr)).pendingTimer = none := by
      simp [stepView]
    have hm : (stepView v (.reset tr)).mounted = false := by
      simp [stepView]
    simp [stepView, fireDue, hpt, hm]

/-- Witness for C5's amended theorem: a view that fired request 0
applies a late response, and responses after reset are dropped. -/
theorem c5_responses_witness :
    (stepView vC5 (.response 2500 0 (.success "late"))).data.summary = "late"
    ∧ stepView (stepView vC5 (.reset 2600)) (.response 2500 0 (.success "late"))
        = stepView vC5 (.reset 2600) :=
  ⟨(c5_responses_apply_unconditionally vC5 2500 2600 0 "late"
      (.success "late")).1 (by decide) (by decide) (by decide),
   (c5_responses_apply_unconditionally vC5 2500 2600 0 "late"
      (.success "late")).2⟩

/-- Claim C6, counterexample to the claim as stated: the debounce is
not armed only by qualifying edits — a `questionText` edit on a Context
row (which changes no Question score, no `isCorrect` and no
`totalScore`) still replaces the questions array, re-runs the effect
and fires a summarize call 2000 ms later. -/
theorem c6_text_edit_arms_refresh :
    (runView dPair [.fieldEdit 0 0 (.questionText "novo"), .flush 5000]).fired.length
        = 1
    ∧ (runView dPair
        [.fieldEdit 0 0 (.questionText "novo"), .flush 5000]).data.totalScore
        = dPair.totalScore
    ∧ (runView dPair
        [.fieldEdit 0 0 (.questionText "novo"), .flush 5000]).data.maxTotalScore
        = dPair.maxTotalScore
    ∧ ((runView dPair
        [.fieldEdit 0 0 (.questionText "novo"), .flush 5000]).data.questions.map
          fun q => q.score)
        = (dPair.questions.map fun q => q.score)
    ∧ ((runView dPair
        [.fieldEdit 0 0 (.questionText "novo"), .flush 5000]).data.questions.map
          fun q => q.isCorrect)
        = (dPair.questions.map fun q => q.isCorrect) := by
  refine ⟨rfl, rfl, rfl, ?_, ?_⟩ <;> decide

/-- Claim C6 (amended): the refresh is armed by any item edit (any
`handleQuestionChange` call replaces the questions array), with a fixed
2000 ms window restarting on each such edit; for edits at t=0, t=500
and t=1000 exactly one summarize call fires, at t=3000, on the state as
of the last edit; and the initial population alone never fires a
call. -/
theorem c6_debounce_window (r₀ : CorrectionResult) (i₁ i₂ i₃ : ℕ)
    (e₁ e₂ e₃ : FieldEdit) (T : ℕ) (hT : 3000 ≤ T) :
    runView r₀ [.fieldEdit 0 i₁ e₁, .fieldEdit 500 i₂ e₂,
        .fieldEdit 1000 i₃ e₃, .flush T]
      = { data := (handleQuestionChange
            (handleQuestionChange (handleQuestionChange r₀ i₁ e₁) i₂ e₂) i₃ e₃),
          pendingTimer := none,
          fired := [(0, 3000, (handleQuestionChange
            (handleQuestionChange (handleQuestionChange r₀ i₁ e₁) i₂ e₂) i₃ e₃))],
          nextReq := 1, isUpdatingSummary := true, mounted := true }
    ∧ runView r₀ [.flush T] = initView r₀ := by
  constructor
  · simp [runView, stepView, fireDue, initView, hT]
  · simp [runView, stepView, fireDue, initView]

/-- Claim C10: an edit to a Question item's `score`/`maxScore` stores
`parseFloat(value) || 0` — always a number, with a non-numeric parse
(`NaN`) coerced to `0` — and the corresponding aggregate total is
recomputed to the spec value (so a non-numeric edit zeroes the field's
contribution to it). -/
theorem c10_score_edits_store_parsed_numbers
    (d : CorrectionResult) (i : ℕ) (it : QuestionResult) (p : Option ℚ) (emp : Bool)
    (hget : d.questions.get? i = some it)
    (hctx : ¬ it.type = some .context) :
    ((handleQuestionChange d i (.score p emp)).questions.get? i
        = some { it with score := .num (parseFloatOr0 p) })
    ∧ ((handleQuestionChange d i (.maxScore p emp)).questions.get? i
        = some { it with maxScore := .num (parseFloatOr0 p) })
    ∧ parseFloatOr0 none = 0
    ∧ (questionScoresNum d.questions = true →
        (handleQuestionChange d i (.score p emp)).totalScore
          = .num (specTotalScore (handleQuestionChange d i (.score p emp)).questions))
    ∧ (questionMaxScoresNum d.questions = true →
        (handleQuestionChange d i (.maxScore p emp)).maxTotalScore
          = .num (specMaxTotalScore
              (handleQuestionChange d i (.maxScore p emp)).questions)) := by
  have key_s : handleQuestionChange d i (.score p emp)
      = { d with
          questions := (listModify d.questions i
            (fun x => { x with score := SVal.num (parseFloatOr0 p) })),
          totalScore := round2To (sumScoresQC (listModify d.questions i
            (fun x => { x with score := SVal.num (parseFloatOr0 p) }))) } := by
    have hg0 : (listModify d.questions i
        fun x => applyRawField x (.score p emp)).get? i
        = some (applyRawField it (.score p emp)) :=
      listModify_get?_same _ _ _ _ hget
    have hic : itemIsContext (listModify d.questions i
        fun x => applyRawField x (.score p emp)) i = false := by
      unfold itemIsContext
      rw [hg0]
      simp [applyRawField_type, hctx]
    simp only [handleQuestionChange, hic, Bool.false_eq_true, if_false,
      listModify_comp]
    rfl
  have key_m : handleQuestionChange d i (.maxScore p emp)
      = { d with
          questions := (listModify d.questions i
            (fun x => { x with maxScore := SVal.num (parseFloatOr0 p) })),
          maxTotalScore := round2To (sumMaxScoresQC (listModify d.questions i
            (fun x => { x with maxScore := SVal.num (parseFloatOr0 p) }))) } := by
    have hg0 : (listModify d.questions i
        fun x => applyRawField x (.maxScore p emp)).get? i
        = some (applyRawField it (.maxScore p emp)) :=
      listModify_get?_same _ _ _ _ hget
    have hic : itemIsContext (listModify d.questions i
        fun x => applyRawField x (.maxScore p emp)) i = false := by
      unfold itemIsContext
      rw [hg0]
      simp [applyRawField_type, hctx]
    simp only [handleQuestionChange, hic, Bool.false_eq_true, if_false,
      listModify_comp]
    rfl
  refine ⟨?_, ?_, rfl, ?_, ?_⟩
  · rw [key_s]
    simpa using listModify_get?_same d.questions i
      (fun x => { x with score := SVal.num (parseFloatOr0 p) }) it hget
  · rw [key_m]
    simpa using listModify_get?_same d.questions i
      (fun x => { x with maxScore := SVal.num (parseFloatOr0 p) }) it hget
  · intro hnum
    have hnum1 : questionScoresNum (listModify d.questions i
        (fun x => { x with score := SVal.num (parseFloatOr0 p) })) = true := by
      unfold questionScoresNum at hnum ⊢
      refine listModify_all _ _ _ _ hnum ?_
      intro a _
      simp
    rw [key_s]
    show round2To (sumScoresQC _) = _
    rw [sumScoresQC_eq _ hnum1]
    rfl
  · intro hnum
    have hnum1 : questionMaxScoresNum (listModify d.questions i
        (fun x => { x with maxScore := SVal.num (parseFloatOr0 p) })) = true := by
      unfold questionMaxScoresNum at hnum ⊢
      refine listModify_all _ _ _ _ hnum ?_
      intro a _
      simp
    rw [key_m]
    show round2To (sumMaxScoresQC _) = _
    rw [sumMaxScoresQC_eq _ hnum1]
    rfl

/-- Witness for C10: a non-numeric (`NaN`) score edit on the question
row of a concrete session stores `0` and restamps the total. -/
theorem c10_score_edits_witness :
    ((handleQuestionChange dPair 1 (.score none true)).questions.get? 1
        = some { qItem 3 10 with score := .num (parseFloatOr0 none) })
    ∧ parseFloatOr0 none = 0
    ∧ (handleQuestionChange dPair 1 (.score none true)).totalScore
        = .num (specTotalScore (handleQuestionChange dPair 1 (.score none true)).questions) :=
  ⟨(c10_score_edits_store_parsed_numbers dPair 1 (qItem 3 10) none true
      rfl (by decide)).1,
   (c10_score_edits_store_parsed_numbers dPair 1 (qItem 3 10) none true
      rfl (by decide)).2.2.1,
   (c10_score_edits_store_parsed_numbers dPair 1 (qItem 3 10) none true
      rfl (by decide)).2.2.2.1 (by decide)⟩

/-- Claim C1 (defect evaluation): on a session whose aggregation
invariant holds and whose context row carries an oracle-given score, a
re-evaluation verdict patch on the question recomputes `totalScore`
with `sumScoresAll`, which does not skip context rows
(`ResultsView.tsx:106`, unlike the fold in `handleQuestionChange`), so
the context row's score leaks into the total: the code stamps 9 where
the invariant (sum over Question items only) prescribes 4. -/
theorem c1_bulk_update_sums_context_scores :
    dC1.totalScore = .num (specTotalScore dC1.questions)
    ∧ (handleQuestionBulkUpdate dC1 1 uC1).totalScore = .num 9
    ∧ specTotalScore (handleQuestionBulkUpdate dC1 1 uC1).questions = 4
    ∧ (handleQuestionBulkUpdate dC1 1 uC1).totalScore
        ≠ .num (specTotalScore (handleQuestionBulkUpdate dC1 1 uC1).questions) := by
  have h3 : round2 3 = 3 := round2_of_mul_eq_int 3 300 (by norm_num)
  have h4 : round2 4 = 4 := round2_of_mul_eq_int 4 400 (by norm_num)
  have h9 : round2 9 = 9 := round2_of_mul_eq_int 9 900 (by norm_num)
  have hpre : dC1.totalScore = .num (specTotalScore dC1.questions) := by
    show JSNum.num 3 = _
    have : specTotalScore dC1.questions = 3 := by
      simp [specTotalScore, qScoreSum, dC1, baseResult, ctxScored, ctxItem0,
        qItem, svalOr0]
      exact h3
    rw [this]
  have ht : (handleQuestionBulkUpdate dC1 1 uC1).totalScore = .num 9 := by
    simp [handleQuestionBulkUpdate, dC1, baseResult, uC1, listModify, applyBulk,
      ctxScored, ctxItem0, qItem, sumScoresAll, jsAddScore, round2To]
    norm_num
    exact h9
  have hs : specTotalScore (handleQuestionBulkUpdate dC1 1 uC1).questions = 4 := by
    simp [handleQuestionBulkUpdate, dC1, baseResult, uC1, listModify, applyBulk,
      ctxScored, ctxItem0, qItem, specTotalScore, qScoreSum, svalOr0]
    exact h4
  refine ⟨hpre, ht, hs, ?_⟩
  rw [ht, hs]
  simp

/-- Witness for C6's amended theorem at a concrete session and
T=5000. -/
theorem c6_debounce_witness :
    runView rSample [.fieldEdit 0 0 (.isCorrect true),
        .fieldEdit 500 0 (.isCorrect false), .fieldEdit 1000 0 (.isCorrect true),
        .flush 5000]
      = { data := (handleQuestionChange (handleQuestionChange
            (handleQuestionChange rSample 0 (.isCorrect true)) 0 (.isCorrect false))
            0 (.isCorrect true)),
          pendingTimer := none,
          fired := [(0, 3000, (handleQuestionChange (handleQuestionChange
            (handleQuestionChange rSample 0 (.isCorrect true)) 0 (.isCorrect false))
            0 (.isCorrect true)))],
          nextReq := 1, isUpdatingSummary := true, mounted := true }
    ∧ runView rSample [.flush 5000] = initView rSample :=
  c6_debounce_window rSample 0 0 0 (.isCorrect true) (.isCorrect false)
    (.isCorrect true) 5000 (by decide)

end Corretora
